import Mathlib

/-!
Verification of the password-hashing service core (`main.go`).

The concrete service is `PasswordManager`: a mutex-guarded record holding
the completed-task map, the next task id, the completed-request counter,
the cumulative processing time, the pending-hash counter and the shutdown
flag.  Every access to the record happens inside one critical section, so
each critical section is modelled as one atomic step of a labeled
transition system: submission (`Hash`), the completion bookkeeping of the
spawned goroutine (`calculateHash`, after its sleep and digest
computation), retrieval (`Get`), the readers (`Stats`,
`HasPendingHashes`, `IsShuttingDown`) and `Shutdown`.

Go `int64` counters are modelled as `Int` (the counters only ever move by
±1 per request, so 64-bit overflow is unreachable in any execution and is
not modelled); byte slices are `List Nat` with entries below 256; the Go
map is an association list with Go map semantics (lookup, replacing
insert, delete).  `time.Duration` is an integer nanosecond count; the
elapsed time measured by a completing goroutine comes from Go's monotonic
clock and is therefore a nonnegative quantity, modelled as a `Nat` event
parameter.  Go's truncating `int64` division is `Int.tdiv`.

The digest is Go's `crypto/sha512` (an external dependency of the repo),
modelled here as full SHA-512 per FIPS 180-4; the adapter encodes results
with `encoding/base64` standard encoding, modelled by `base64Encode`.
-/

/-! ## SHA-512 (FIPS 180-4) over byte lists -/

def w64 : Nat := 2 ^ 64

def add64 (a b : Nat) : Nat := (a + b) % w64

def rotr64 (n x : Nat) : Nat := ((x >>> n) ||| (x <<< (64 - n))) % w64

def not64 (x : Nat) : Nat := x ^^^ (w64 - 1)

def bigSigma0 (x : Nat) : Nat := rotr64 28 x ^^^ rotr64 34 x ^^^ rotr64 39 x

def bigSigma1 (x : Nat) : Nat := rotr64 14 x ^^^ rotr64 18 x ^^^ rotr64 41 x

def smallSigma0 (x : Nat) : Nat := rotr64 1 x ^^^ rotr64 8 x ^^^ (x >>> 7)

def smallSigma1 (x : Nat) : Nat := rotr64 19 x ^^^ rotr64 61 x ^^^ (x >>> 6)

def chF (x y z : Nat) : Nat := (x &&& y) ^^^ (not64 x &&& z)

def majF (x y z : Nat) : Nat := (x &&& y) ^^^ (x &&& z) ^^^ (y &&& z)

/-- A 64-bit word from its 32-bit big-endian halves. -/
def wrd (hi lo : Nat) : Nat := hi * 0x100000000 + lo

def sha512K : List Nat :=
  [wrd 0x428a2f98 0xd728ae22, wrd 0x71374491 0x23ef65cd, wrd 0xb5c0fbcf 0xec4d3b2f, wrd 0xe9b5dba5 0x8189dbbc,
   wrd 0x3956c25b 0xf348b538, wrd 0x59f111f1 0xb605d019, wrd 0x923f82a4 0xaf194f9b, wrd 0xab1c5ed5 0xda6d8118,
   wrd 0xd807aa98 0xa3030242, wrd 0x12835b01 0x45706fbe, wrd 0x243185be 0x4ee4b28c, wrd 0x550c7dc3 0xd5ffb4e2,
   wrd 0x72be5d74 0xf27b896f, wrd 0x80deb1fe 0x3b1696b1, wrd 0x9bdc06a7 0x25c71235, wrd 0xc19bf174 0xcf692694,
   wrd 0xe49b69c1 0x9ef14ad2, wrd 0xefbe4786 0x384f25e3, wrd 0x0fc19dc6 0x8b8cd5b5, wrd 0x240ca1cc 0x77ac9c65,
   wrd 0x2de92c6f 0x592b0275, wrd 0x4a7484aa 0x6ea6e483, wrd 0x5cb0a9dc 0xbd41fbd4, wrd 0x76f988da 0x831153b5,
   wrd 0x983e5152 0xee66dfab, wrd 0xa831c66d 0x2db43210, wrd 0xb00327c8 0x98fb213f, wrd 0xbf597fc7 0xbeef0ee4,
   wrd 0xc6e00bf3 0x3da88fc2, wrd 0xd5a79147 0x930aa725, wrd 0x06ca6351 0xe003826f, wrd 0x14292967 0x0a0e6e70,
   wrd 0x27b70a85 0x46d22ffc, wrd 0x2e1b2138 0x5c26c926, wrd 0x4d2c6dfc 0x5ac42aed, wrd 0x53380d13 0x9d95b3df,
   wrd 0x650a7354 0x8baf63de, wrd 0x766a0abb 0x3c77b2a8, wrd 0x81c2c92e 0x47edaee6, wrd 0x92722c85 0x1482353b,
   wrd 0xa2bfe8a1 0x4cf10364, wrd 0xa81a664b 0xbc423001, wrd 0xc24b8b70 0xd0f89791, wrd 0xc76c51a3 0x0654be30,
   wrd 0xd192e819 0xd6ef5218, wrd 0xd6990624 0x5565a910, wrd 0xf40e3585 0x5771202a, wrd 0x106aa070 0x32bbd1b8,
   wrd 0x19a4c116 0xb8d2d0c8, wrd 0x1e376c08 0x5141ab53, wrd 0x2748774c 0xdf8eeb99, wrd 0x34b0bcb5 0xe19b48a8,
   wrd 0x391c0cb3 0xc5c95a63, wrd 0x4ed8aa4a 0xe3418acb, wrd 0x5b9cca4f 0x7763e373, wrd 0x682e6ff3 0xd6b2b8a3,
   wrd 0x748f82ee 0x5defb2fc, wrd 0x78a5636f 0x43172f60, wrd 0x84c87814 0xa1f0ab72, wrd 0x8cc70208 0x1a6439ec,
   wrd 0x90befffa 0x23631e28, wrd 0xa4506ceb 0xde82bde9, wrd 0xbef9a3f7 0xb2c67915, wrd 0xc67178f2 0xe372532b,
   wrd 0xca273ece 0xea26619c, wrd 0xd186b8c7 0x21c0c207, wrd 0xeada7dd6 0xcde0eb1e, wrd 0xf57d4f7f 0xee6ed178,
   wrd 0x06f067aa 0x72176fba, wrd 0x0a637dc5 0xa2c898a6, wrd 0x113f9804 0xbef90dae, wrd 0x1b710b35 0x131c471b,
   wrd 0x28db77f5 0x23047d84, wrd 0x32caab7b 0x40c72493, wrd 0x3c9ebe0a 0x15c9bebc, wrd 0x431d67c4 0x9c100d4c,
   wrd 0x4cc5d4be 0xcb3e42b6, wrd 0x597f299c 0xfc657e2a, wrd 0x5fcb6fab 0x3ad6faec, wrd 0x6c44198c 0x4a475817]

structure Hash8 where
  a : Nat
  b : Nat
  c : Nat
  d : Nat
  e : Nat
  f : Nat
  g : Nat
  h : Nat

def sha512IV : Hash8 :=
  ⟨wrd 0x6a09e667 0xf3bcc908, wrd 0xbb67ae85 0x84caa73b, wrd 0x3c6ef372 0xfe94f82b, wrd 0xa54ff53a 0x5f1d36f1,
   wrd 0x510e527f 0xade682d1, wrd 0x9b05688c 0x2b3e6c1f, wrd 0x1f83d9ab 0xfb41bd6b, wrd 0x5be0cd19 0x137e2179⟩

def sha512Round (s : Hash8) (kw : Nat × Nat) : Hash8 :=
  let t1 := add64 s.h (add64 (bigSigma1 s.e) (add64 (chF s.e s.f s.g) (add64 kw.1 kw.2)))
  let t2 := add64 (bigSigma0 s.a) (majF s.a s.b s.c)
  ⟨add64 t1 t2, s.a, s.b, s.c, add64 s.d t1, s.e, s.f, s.g⟩

def nextW (rws : List Nat) : Nat :=
  add64 (add64 (smallSigma1 (rws.getD 1 0)) (rws.getD 6 0))
        (add64 (smallSigma0 (rws.getD 14 0)) (rws.getD 15 0))

def expandRev : Nat → List Nat → List Nat
  | 0, rws => rws
  | n + 1, rws => expandRev n (nextW rws :: rws)

def sha512Compress (hs : Hash8) (block : List Nat) : Hash8 :=
  let ws := (expandRev 64 block.reverse).reverse
  let s := (sha512K.zip ws).foldl sha512Round hs
  ⟨add64 hs.a s.a, add64 hs.b s.b, add64 hs.c s.c, add64 hs.d s.d,
   add64 hs.e s.e, add64 hs.f s.f, add64 hs.g s.g, add64 hs.h s.h⟩

/-- `k` big-endian bytes of `n`. -/
def beBytes : Nat → Nat → List Nat
  | 0, _ => []
  | k + 1, n => beBytes k (n / 256) ++ [n % 256]

def beWord (bs : List Nat) : Nat := bs.foldl (fun acc b => acc * 256 + b) 0

def chunks8 : List Nat → List (List Nat)
  | b0 :: b1 :: b2 :: b3 :: b4 :: b5 :: b6 :: b7 :: rest =>
      [b0, b1, b2, b3, b4, b5, b6, b7] :: chunks8 rest
  | _ => []

def chunks16 : List Nat → List (List Nat)
  | w0 :: w1 :: w2 :: w3 :: w4 :: w5 :: w6 :: w7 ::
    w8 :: w9 :: w10 :: w11 :: w12 :: w13 :: w14 :: w15 :: rest =>
      [w0, w1, w2, w3, w4, w5, w6, w7, w8, w9, w10, w11, w12, w13, w14, w15] :: chunks16 rest
  | _ => []

/-- FIPS 180-4 padding: append `0x80`, zero bytes, then the 128-bit
big-endian bit length, reaching a multiple of 128 bytes. -/
def padMsg (msg : List Nat) : List Nat :=
  let L := msg.length
  msg ++ [0x80] ++ List.replicate ((128 - ((L + 17) % 128)) % 128) 0 ++ beBytes 16 (8 * L)

/-- SHA-512 digest (64 bytes) of a byte list.  Models Go's
`crypto/sha512` (`digest.Write(pwd); digest.Sum(nil)` in
`calculateHash`). -/
def sha512 (msg : List Nat) : List Nat :=
  let blocks := chunks16 ((chunks8 (padMsg msg)).map beWord)
  let hs := blocks.foldl sha512Compress sha512IV
  beBytes 8 hs.a ++ beBytes 8 hs.b ++ beBytes 8 hs.c ++ beBytes 8 hs.d ++
  beBytes 8 hs.e ++ beBytes 8 hs.f ++ beBytes 8 hs.g ++ beBytes 8 hs.h

/-! ## base64 standard encoding (RFC 4648), as used by the adapter -/

def b64Char (n : Nat) : Char :=
  "ABCDEFGHIJKLMNOPQRSTUVWXYZabcdefghijklmnopqrstuvwxyz0123456789+/".toList.getD n 'A'

def b64Chunks : List Nat → List Char
  | b0 :: b1 :: b2 :: rest =>
      b64Char (b0 >>> 2) :: b64Char (((b0 % 4) <<< 4) ||| (b1 >>> 4)) ::
      b64Char (((b1 % 16) <<< 2) ||| (b2 >>> 6)) :: b64Char (b2 % 64) :: b64Chunks rest
  | [b0, b1] =>
      [b64Char (b0 >>> 2), b64Char (((b0 % 4) <<< 4) ||| (b1 >>> 4)),
       b64Char ((b1 % 16) <<< 2), '=']
  | [b0] => [b64Char (b0 >>> 2), b64Char ((b0 % 4) <<< 4), '=', '=']
  | [] => []

def base64Encode (bs : List Nat) : String := String.mk (b64Chunks bs)

/-- The bytes of the string literal "angryMonkey" from the unit test. -/
def angryMonkeyBytes : List Nat := [97, 110, 103, 114, 121, 77, 111, 110, 107, 101, 121]

/-! ## The Go map `map[int64][]byte`, as an association list -/

def mapGet (m : List (Int × List Nat)) (k : Int) : Option (List Nat) :=
  (m.find? (fun p => p.1 == k)).map Prod.snd

def mapDel (m : List (Int × List Nat)) (k : Int) : List (Int × List Nat) :=
  m.filter (fun p => !(p.1 == k))

def mapPut (m : List (Int × List Nat)) (k : Int) (v : List Nat) : List (Int × List Nat) :=
  mapDel m k ++ [(k, v)]

/-! ## The `PasswordManager` record and its critical sections -/

structure PasswordManager where
  /-- `tasks map[int64][]byte` — hash results, indexed by id. -/
  tasks : List (Int × List Nat)
  /-- `id int64` — next task id. -/
  id : Int
  /-- `requests int64` — number of processed hash requests. -/
  requests : Int
  /-- `totalTime time.Duration` — total time spent processing requests (ns). -/
  totalTime : Int
  /-- `pendingHashes int` — currently pending hash requests. -/
  pendingHashes : Int
  /-- `shuttingDown bool` — indicates that a shutdown is in progress. -/
  shuttingDown : Bool
deriving DecidableEq

/-- `NewPasswordManager`: zero-valued record with an empty task map. -/
def NewPasswordManager : PasswordManager := ⟨[], 0, 0, 0, 0, false⟩

/-- The critical section of `Hash`: increment `pendingHashes`, hand out the
current `id` and increment it.  Returns the issued id and the new state
(the goroutine spawn is modelled at the system level, `submitStep`). -/
def PasswordManager.Hash (pm : PasswordManager) : Int × PasswordManager :=
  (pm.id, { pm with pendingHashes := pm.pendingHashes + 1, id := pm.id + 1 })

/-- The critical section at the end of `calculateHash` (after the 5 s sleep
and the digest computation): store the hash under the task's id, add the
elapsed time, decrement `pendingHashes`, increment `requests`. -/
def PasswordManager.calculateHash (pm : PasswordManager) (id : Int) (pwd : List Nat)
    (elapsed : Nat) : PasswordManager :=
  { pm with
    tasks := mapPut pm.tasks id (sha512 pwd),
    totalTime := pm.totalTime + elapsed,
    pendingHashes := pm.pendingHashes - 1,
    requests := pm.requests + 1 }

/-- `Get`: look up the id (a missing key yields Go's nil slice, `none`),
delete the entry, return the result and the new state. -/
def PasswordManager.Get (pm : PasswordManager) (id : Int) : Option (List Nat) × PasswordManager :=
  (mapGet pm.tasks id, { pm with tasks := mapDel pm.tasks id })

/-- `Stats`: number of processed requests and average processing time in
ms; Go's `/` on `int64` truncates toward zero (`Int.tdiv`). -/
def PasswordManager.Stats (pm : PasswordManager) : Int × Int :=
  (pm.requests,
   if pm.requests > 0 then Int.tdiv (Int.tdiv pm.totalTime 1000000) pm.requests else 0)

/-- `HasPendingHashes`: `pendingHashes > 0`. -/
def PasswordManager.HasPendingHashes (pm : PasswordManager) : Bool :=
  decide (pm.pendingHashes > 0)

/-- `Shutdown`: set the `shuttingDown` flag. -/
def PasswordManager.Shutdown (pm : PasswordManager) : PasswordManager :=
  { pm with shuttingDown := true }

/-- `IsShuttingDown`: read the `shuttingDown` flag. -/
def PasswordManager.IsShuttingDown (pm : PasswordManager) : Bool :=
  pm.shuttingDown

/-! ## System model: the shared record plus the spawned goroutines -/

/-- One goroutine spawned by `Hash` (`go pm.calculateHash(id, pwd, ts)`):
it captured the issued id and the password by value. -/
structure TaskReq where
  id : Int
  pwd : List Nat
deriving DecidableEq

/-- The whole system: the locked `PasswordManager` plus the in-flight
goroutines that have not yet run their completion critical section. -/
structure SysState where
  pm : PasswordManager
  inflight : List TaskReq
deriving DecidableEq

def initState : SysState := ⟨NewPasswordManager, []⟩

/-- One observable step.  `complete id elapsed` is the completion critical
section of the in-flight goroutine for `id` (the scheduler may pick any
in-flight goroutine, in any order); `elapsed` is the nonnegative duration
its monotonic-clock measurement produced.  Reader operations do not change
state. -/
inductive Event where
  | hash (pwd : List Nat)
  | complete (id : Int) (elapsed : Nat)
  | get (id : Int)
  | stats
  | pendingQuery
  | shutdown
  | drainQuery
deriving DecidableEq

/-- `Hash` at the system level: run the critical section and spawn the
goroutine carrying the issued id and the password. -/
def submitStep (s : SysState) (pwd : List Nat) : Int × SysState :=
  let r := s.pm.Hash
  (r.1, ⟨r.2, s.inflight ++ [⟨r.1, pwd⟩]⟩)

/-- Completion of the in-flight goroutine for `id`, if any: it leaves the
in-flight set and runs `calculateHash`'s critical section.  If no such
goroutine exists the event does not fire (stutter). -/
def completeStep (s : SysState) (id : Int) (elapsed : Nat) : SysState :=
  match s.inflight.find? (fun t => t.id == id) with
  | some t => ⟨s.pm.calculateHash t.id t.pwd elapsed, s.inflight.eraseP (fun u => u.id == id)⟩
  | none => s

def step (s : SysState) : Event → SysState
  | .hash pwd => (submitStep s pwd).2
  | .complete id elapsed => completeStep s id elapsed
  | .get id => ⟨(s.pm.Get id).2, s.inflight⟩
  | .stats => s
  | .pendingQuery => s
  | .shutdown => ⟨s.pm.Shutdown, s.inflight⟩
  | .drainQuery => s

/-- State after a trace of events from the fresh engine. -/
def runTrace (tr : List Event) : SysState := tr.foldl step initState

/-- The ids handed out to the `hash` events of a trace, in order. -/
def collectHandles (s : SysState) : List Event → List Int
  | [] => []
  | .hash pwd :: rest => (submitStep s pwd).1 :: collectHandles (step s (.hash pwd)) rest
  | e :: rest => collectHandles (step s e) rest

/-- Number of `hash` events of a trace. -/
def countHash : List Event → Nat
  | [] => 0
  | .hash _ :: rest => countHash rest + 1
  | _ :: rest => countHash rest

/-- Whether an event is a `Get` call. -/
def isGetEvent : Event → Bool
  | .get _ => true
  | _ => false

/-- The `POST /hash` handler's interaction with the engine
(`PasswordManagerHandler.hash`): `isShutdownPending` first checks
`IsShuttingDown` and rejects the request without touching the engine;
otherwise the handler delegates to `Hash` and returns the id.  HTTP
method and body parsing are adapter details abstracted away. -/
def handlerHash (s : SysState) (pwd : List Nat) : Option Int × SysState :=
  if s.pm.IsShuttingDown then (none, s)
  else
    let r := submitStep s pwd
    (some r.1, r.2)

/-! ## Helper lemmas -/

theorem beBytes_length (k : Nat) : ∀ n : Nat, (beBytes k n).length = k := by
  induction k with
  | zero => intro n; rfl
  | succ k ih => intro n; simp [beBytes, ih]

theorem sha512_length (msg : List Nat) : (sha512 msg).length = 64 := by
  simp [sha512, beBytes_length]

theorem mapGet_eq_none_iff (m : List (Int × List Nat)) (k : Int) :
    mapGet m k = none ↔ ∀ p ∈ m, p.1 ≠ k := by
  simp [mapGet, Option.map_eq_none', List.find?_eq_none]

theorem mapGet_mapDel_self (m : List (Int × List Nat)) (k : Int) :
    mapGet (mapDel m k) k = none := by
  rw [mapGet_eq_none_iff]
  intro p hp
  have h2 := (List.mem_filter.mp hp).2
  simpa using h2

theorem mapGet_mapDel_ne (m : List (Int × List Nat)) {k h : Int} (hne : h ≠ k) :
    mapGet (mapDel m k) h = mapGet m h := by
  induction m with
  | nil => rfl
  | cons p rest ih =>
    by_cases hpk : p.1 = k
    · have hfk : (p.1 == k) = true := by simp [hpk]
      have hph : (p.1 == h) = false := by rw [hpk]; simpa using Ne.symm hne
      simpa [mapGet, mapDel, List.filter_cons, List.find?_cons, hfk, hph] using ih
    · have hfk : (p.1 == k) = false := by simp [hpk]
      by_cases hb : p.1 = h
      · have hbh : (p.1 == h) = true := by simp [hb]
        simp [mapGet, mapDel, List.filter_cons, List.find?_cons, hfk, hbh]
      · have hbh : (p.1 == h) = false := by simp [hb]
        simpa [mapGet, mapDel, List.filter_cons, List.find?_cons, hfk, hbh] using ih

theorem mapDel_eq_self_of_none (m : List (Int × List Nat)) (k : Int)
    (h : mapGet m k = none) : mapDel m k = m := by
  rw [mapGet_eq_none_iff] at h
  refine List.filter_eq_self.mpr ?_
  intro p hp
  simpa using h p hp

theorem mapGet_mapPut_self (m : List (Int × List Nat)) (k : Int) (v : List Nat) :
    mapGet (mapPut m k v) k = some v := by
  have hnone : (mapDel m k).find? (fun p => p.1 == k) = none := by
    have h2 := mapGet_mapDel_self m k
    simpa [mapGet, Option.map_eq_none'] using h2
  simp [mapPut, mapGet, List.find?_append, hnone]

theorem mapGet_mapPut_ne (m : List (Int × List Nat)) {k h : Int} (v : List Nat)
    (hne : h ≠ k) : mapGet (mapPut m k v) h = mapGet m h := by
  have hsk : ((k : Int) == h) = false := by simpa using Ne.symm hne
  rw [← mapGet_mapDel_ne m hne]
  simp [mapPut, mapGet, List.find?_append, List.find?_cons, hsk, Option.or_none]

/-- The master invariant of reachable system states: the id counter splits
into pending plus completed, the pending counter counts the in-flight
goroutines, the statistics counters are nonnegative, and every stored
result is a 64-byte digest. -/
def SysInv (s : SysState) : Prop :=
  s.pm.id = s.pm.pendingHashes + s.pm.requests ∧
  s.pm.pendingHashes = (s.inflight.length : Int) ∧
  0 ≤ s.pm.requests ∧
  0 ≤ s.pm.totalTime ∧
  ∀ p ∈ s.pm.tasks, (p.2).length = 64

theorem sysInv_init : SysInv initState := by
  refine ⟨rfl, rfl, le_refl _, le_refl _, ?_⟩
  intro p hp
  simp [initState, NewPasswordManager] at hp

theorem sysInv_step (s : SysState) (e : Event) (h : SysInv s) : SysInv (step s e) := by
  obtain ⟨hid, hpend, hreq, htot, htasks⟩ := h
  cases e with
  | hash pwd =>
    refine ⟨?_, ?_, hreq, htot, htasks⟩
    · simp [step, submitStep, PasswordManager.Hash]
      omega
    · simp [step, submitStep, PasswordManager.Hash, hpend]
  | complete id elapsed =>
    show SysInv (completeStep s id elapsed)
    rcases hfd : s.inflight.find? (fun t => t.id == id) with _ | t
    · simpa [completeStep, hfd] using ⟨hid, hpend, hreq, htot, htasks⟩
    · have hmem := List.mem_of_find?_eq_some hfd
      have hp := List.find?_some hfd
      have hlen : (s.inflight.eraseP (fun u => u.id == id)).length =
          s.inflight.length - 1 := List.length_eraseP_of_mem hmem hp
      have hpos : 0 < s.inflight.length := List.length_pos_of_mem hmem
      refine ⟨?_, ?_, ?_, ?_, ?_⟩
      · simp [completeStep, hfd, PasswordManager.calculateHash]
        omega
      · simp [completeStep, hfd, PasswordManager.calculateHash, hlen, hpend]
        omega
      · simp [completeStep, hfd, PasswordManager.calculateHash]
        omega
      · simp [completeStep, hfd, PasswordManager.calculateHash]
        positivity
      · intro p hpmem
        simp only [completeStep, hfd, PasswordManager.calculateHash] at hpmem
        simp only [mapPut] at hpmem
        rcases List.mem_append.mp hpmem with hleft | hright
        · exact htasks p ((List.mem_filter.mp hleft).1)
        · simp at hright
          rw [hright]
          exact sha512_length _
  | get id =>
    refine ⟨hid, hpend, hreq, htot, ?_⟩
    intro p hp
    exact htasks p ((List.mem_filter.mp hp).1)
  | stats => exact ⟨hid, hpend, hreq, htot, htasks⟩
  | pendingQuery => exact ⟨hid, hpend, hreq, htot, htasks⟩
  | shutdown => exact ⟨hid, hpend, hreq, htot, htasks⟩
  | drainQuery => exact ⟨hid, hpend, hreq, htot, htasks⟩

theorem sysInv_foldl (tr : List Event) : ∀ s : SysState, SysInv s → SysInv (tr.foldl step s) := by
  induction tr with
  | nil => intro s h; exact h
  | cons e rest ih => intro s h; exact ih (step s e) (sysInv_step s e h)

theorem sysInv_runTrace (tr : List Event) : SysInv (runTrace tr) :=
  sysInv_foldl tr initState sysInv_init

theorem completeStep_pm_id (s : SysState) (id : Int) (elapsed : Nat) :
    (completeStep s id elapsed).pm.id = s.pm.id := by
  rcases hfd : s.inflight.find? (fun t => t.id == id) with _ | t <;>
    simp [completeStep, hfd, PasswordManager.calculateHash]

theorem collectHandles_eq (tr : List Event) :
    ∀ s : SysState, collectHandles s tr =
      (List.range (countHash tr)).map (fun k : Nat => s.pm.id + (k : Int)) := by
  induction tr with
  | nil => intro s; rfl
  | cons e rest ih =>
    intro s
    cases e with
    | hash pwd =>
      have hid : (step s (.hash pwd)).pm.id = s.pm.id + 1 := rfl
      simp only [collectHandles, countHash, ih, hid, List.range_succ_eq_map, List.map_cons,
        List.map_map]
      congr 1
      · show (submitStep s pwd).1 = s.pm.id + ((0 : Nat) : Int)
        simp [submitStep, PasswordManager.Hash]
      · congr 1
        funext k
        simp only [Function.comp_apply]
        push_cast
        ring
    | complete id elapsed =>
      simp only [collectHandles, countHash, step, ih, completeStep_pm_id]
    | get id => exact ih _
    | stats => exact ih _
    | pendingQuery => exact ih _
    | shutdown => exact ih _
    | drainQuery => exact ih _

set_option maxRecDepth 8000

/-- C1: once the asynchronous work for a submitted value's handle has
completed, `Get` on that handle returns the SHA-512 digest of the value;
and the digest of "angryMonkey" base64-encodes to the expected constant.
The hypothesis says no in-flight goroutine already carries the fresh
handle, which holds in every reachable state. -/
theorem submitted_value_digest (s : SysState) (v : List Nat) (elapsed : Nat)
    (hfresh : s.inflight.find? (fun t => t.id == s.pm.id) = none) :
    ((step (step s (.hash v)) (.complete s.pm.id elapsed)).pm.Get s.pm.id).1
      = some (sha512 v) ∧
    base64Encode (sha512 angryMonkeyBytes) =
      "ZEHhWB65gUlzdVwtDQArEyx+KVLzp/aTaRaPlBzYRIFj6vjFdqEb0Q5B8zVKCZ0vKbZPZklJz0Fd7su2A+gf7Q==" := by
  constructor
  · have hfind : (s.inflight ++ [(⟨s.pm.id, v⟩ : TaskReq)]).find? (fun t => t.id == s.pm.id)
        = some (⟨s.pm.id, v⟩ : TaskReq) := by
      rw [List.find?_append, hfresh]
      simp [List.find?_cons]
    show ((completeStep (step s (.hash v)) s.pm.id elapsed).pm.Get s.pm.id).1 = some (sha512 v)
    simp [step, submitStep, completeStep, PasswordManager.Hash, hfind,
      PasswordManager.calculateHash, PasswordManager.Get, mapGet_mapPut_self]
  · decide

theorem submitted_value_digest_witness :
    ((step (step initState (.hash angryMonkeyBytes)) (.complete 0 0)).pm.Get 0).1
      = some (sha512 angryMonkeyBytes) :=
  (submitted_value_digest initState angryMonkeyBytes 0 rfl).1

/-- C2: over any trace of events from the fresh engine, the handles handed
out by the `Hash` calls are exactly `0, 1, …, N−1` in submission order
(`N` the number of `Hash` calls): strictly increasing, no duplicates, no
gaps, never reused. -/
theorem handles_zero_to_n (tr : List Event) :
    collectHandles initState tr
      = (List.range (countHash tr)).map (fun k : Nat => (k : Int)) ∧
    (collectHandles initState tr).Pairwise (· < ·) ∧
    (collectHandles initState tr).Nodup := by
  have h := collectHandles_eq tr initState
  have h0 : (fun k : Nat => initState.pm.id + (k : Int)) = fun k : Nat => (k : Int) := by
    funext k
    show (0 : Int) + (k : Int) = (k : Int)
    ring
  rw [h0] at h
  have hpair : (collectHandles initState tr).Pairwise (· < ·) := by
    rw [h]
    refine List.Pairwise.map _ ?_ (List.pairwise_lt_range _)
    intro a b hab
    exact_mod_cast hab
  exact ⟨h, hpair, hpair.imp fun hab => ne_of_lt hab⟩

/-- C3: a fetch succeeds at most once: `Get` deletes the entry it
returns, so a second `Get` of the same handle yields the not-found
signal; when an entry is present `Get` returns its bytes; and no
operation other than `Get` ever removes a stored entry. -/
theorem get_consumes_once (s : SysState) (h k : Int) (v : List Nat) (e : Event) :
    mapGet ((s.pm.Get h).2).tasks h = none ∧
    (((s.pm.Get h).2).Get h).1 = none ∧
    (mapGet s.pm.tasks h = some v → (s.pm.Get h).1 = some v) ∧
    (isGetEvent e = false → mapGet s.pm.tasks k = some v →
      ∃ v2, mapGet (step s e).pm.tasks k = some v2) := by
  refine ⟨mapGet_mapDel_self _ _, mapGet_mapDel_self _ _, fun hv => hv, ?_⟩
  intro hnotget hv
  cases e with
  | get id => simp [isGetEvent] at hnotget
  | hash pwd => exact ⟨v, hv⟩
  | complete id elapsed =>
    show ∃ v2, mapGet (completeStep s id elapsed).pm.tasks k = some v2
    rcases hfd : s.inflight.find? (fun t => t.id == id) with _ | t
    · exact ⟨v, by simpa [completeStep, hfd] using hv⟩
    · by_cases hk : k = t.id
      · refine ⟨sha512 t.pwd, ?_⟩
        simp [completeStep, hfd, PasswordManager.calculateHash, hk, mapGet_mapPut_self]
      · refine ⟨v, ?_⟩
        simp only [completeStep, hfd, PasswordManager.calculateHash]
        rw [mapGet_mapPut_ne _ _ hk]
        exact hv
  | stats => exact ⟨v, hv⟩
  | pendingQuery => exact ⟨v, hv⟩
  | shutdown => exact ⟨v, hv⟩
  | drainQuery => exact ⟨v, hv⟩

theorem get_consumes_once_witness :
    mapGet ((PasswordManager.Get ⟨[(0, [1])], 1, 1, 5, 0, false⟩ 0).2).tasks 0 = none ∧
    (((PasswordManager.Get ⟨[(0, [1])], 1, 1, 5, 0, false⟩ 0).2).Get 0).1 = none ∧
    (PasswordManager.Get ⟨[(0, [1])], 1, 1, 5, 0, false⟩ 0).1 = some [1] ∧
    ∃ v2, mapGet (step ⟨⟨[(0, [1])], 1, 1, 5, 0, false⟩, []⟩ .stats).pm.tasks 0 = some v2 := by
  have hc := get_consumes_once ⟨⟨[(0, [1])], 1, 1, 5, 0, false⟩, []⟩ 0 0 [1] .stats
  exact ⟨hc.1, hc.2.1, hc.2.2.1 (by decide), hc.2.2.2 (by decide) (by decide)⟩

/-- C4: while the shutdown flag is set the adapter's `/hash` handler
refuses the submission and leaves the engine untouched, while an
in-flight goroutine still completes normally: it stores its digest,
increments the completed counter, adds its elapsed time, decrements the
pending counter, and the flag stays set. -/
theorem draining_refuses_submit (s : SysState) (pwd : List Nat) (id : Int) (elapsed : Nat)
    (t : TaskReq) (hs : s.pm.shuttingDown = true) :
    handlerHash s pwd = (none, s) ∧
    (s.inflight.find? (fun u => u.id == id) = some t →
      mapGet (completeStep s id elapsed).pm.tasks t.id = some (sha512 t.pwd) ∧
      (completeStep s id elapsed).pm.requests = s.pm.requests + 1 ∧
      (completeStep s id elapsed).pm.totalTime = s.pm.totalTime + (elapsed : Int) ∧
      (completeStep s id elapsed).pm.pendingHashes = s.pm.pendingHashes - 1 ∧
      (completeStep s id elapsed).pm.shuttingDown = true) := by
  constructor
  · simp [handlerHash, PasswordManager.IsShuttingDown, hs]
  · intro hfd
    refine ⟨?_, ?_, ?_, ?_, ?_⟩ <;>
      simp [completeStep, hfd, PasswordManager.calculateHash, mapGet_mapPut_self, hs]

theorem draining_refuses_submit_witness :
    handlerHash ⟨⟨[], 1, 0, 0, 1, true⟩, [⟨0, [2]⟩]⟩ [5] = (none, ⟨⟨[], 1, 0, 0, 1, true⟩, [⟨0, [2]⟩]⟩) ∧
    mapGet (completeStep ⟨⟨[], 1, 0, 0, 1, true⟩, [⟨0, [2]⟩]⟩ 0 7).pm.tasks 0 = some (sha512 [2]) ∧
    (completeStep ⟨⟨[], 1, 0, 0, 1, true⟩, [⟨0, [2]⟩]⟩ 0 7).pm.requests = 1 ∧
    (completeStep ⟨⟨[], 1, 0, 0, 1, true⟩, [⟨0, [2]⟩]⟩ 0 7).pm.shuttingDown = true := by
  have hd := draining_refuses_submit ⟨⟨[], 1, 0, 0, 1, true⟩, [⟨0, [2]⟩]⟩ [5] 0 7 ⟨0, [2]⟩ rfl
  have hd2 := hd.2 (by decide)
  exact ⟨hd.1, hd2.1, by rw [hd2.2.1]; decide, hd2.2.2.2.2⟩

/-- C5: whenever the completed count is positive, the reported average is
the cumulative nanosecond duration divided by `1000000 ·
count`, rounded down (the code computes `(totalTime / 1000000) /
requests` with truncating division over nonnegative reachable values). -/
theorem stats_average_truncates (tr : List Event)
    (hpos : 0 < ((runTrace tr).pm.Stats).1) :
    ((runTrace tr).pm.Stats).2 =
      Int.fdiv (runTrace tr).pm.totalTime (1000000 * (runTrace tr).pm.requests) := by
  obtain ⟨-, -, hreq, htot, -⟩ := sysInv_runTrace tr
  have hr : 0 < (runTrace tr).pm.requests := hpos
  show (if (runTrace tr).pm.requests > 0
      then Int.tdiv (Int.tdiv (runTrace tr).pm.totalTime 1000000) (runTrace tr).pm.requests
      else 0)
    = Int.fdiv (runTrace tr).pm.totalTime (1000000 * (runTrace tr).pm.requests)
  rw [if_pos hr]
  obtain ⟨a, ha⟩ : ∃ a : Nat, (runTrace tr).pm.totalTime = (a : Int) :=
    ⟨(runTrace tr).pm.totalTime.toNat, (Int.toNat_of_nonneg htot).symm⟩
  obtain ⟨r, hrr⟩ : ∃ r : Nat, (runTrace tr).pm.requests = (r : Int) :=
    ⟨(runTrace tr).pm.requests.toNat, (Int.toNat_of_nonneg hreq).symm⟩
  rw [ha, hrr]
  have e1 : Int.tdiv (a : Int) (1000000 : Int) = ((a / 1000000 : Nat) : Int) := by
    have := Int.ofNat_tdiv a 1000000
    simpa using this.symm
  have e2 : Int.tdiv ((a / 1000000 : Nat) : Int) (r : Int) = ((a / 1000000 / r : Nat) : Int) := by
    have := Int.ofNat_tdiv (a / 1000000) r
    simpa using this.symm
  have e3 : Int.fdiv (a : Int) (((1000000 * r : Nat) : Nat) : Int)
      = ((a / (1000000 * r) : Nat) : Int) := by
    rw [Int.fdiv_eq_ediv _ (by positivity),
      ← Int.tdiv_eq_ediv (by positivity) (by positivity)]
    have := Int.ofNat_tdiv a (1000000 * r)
    simpa using this.symm
  rw [e1, e2]
  have e4 : (1000000 : Int) * (r : Int) = (((1000000 * r : Nat) : Nat) : Int) := by push_cast; ring
  rw [e4, e3, Nat.div_div_eq_div_mul]

theorem stats_average_truncates_witness :
    0 < ((runTrace [.hash [], .complete 0 2000000000]).pm.Stats).1 ∧
    ((runTrace [.hash [], .complete 0 2000000000]).pm.Stats).2 =
      Int.fdiv (runTrace [.hash [], .complete 0 2000000000]).pm.totalTime
        (1000000 * (runTrace [.hash [], .complete 0 2000000000]).pm.requests) :=
  ⟨by decide, stats_average_truncates [.hash [], .complete 0 2000000000] (by decide)⟩

/-- C6: `Shutdown` is idempotent, `IsShuttingDown` reports true after it,
and the draining state is terminal: once the flag is set, no engine
operation clears it. -/
theorem shutdown_idempotent_terminal (s : SysState) (e : Event) :
    s.pm.Shutdown.Shutdown = s.pm.Shutdown ∧
    s.pm.Shutdown.IsShuttingDown = true ∧
    (s.pm.shuttingDown = true →
      (step s e).pm.shuttingDown = true ∧ (step s e).pm.IsShuttingDown = true) := by
  refine ⟨rfl, rfl, fun hs => ?_⟩
  have hflag : (step s e).pm.shuttingDown = true := by
    cases e with
    | complete id elapsed =>
      rcases hfd : s.inflight.find? (fun t => t.id == id) with _ | t <;>
        simp [step, completeStep, hfd, PasswordManager.calculateHash, hs]
    | hash pwd => simpa [step, submitStep, PasswordManager.Hash] using hs
    | get id => simpa [step, PasswordManager.Get] using hs
    | shutdown => simp [step, PasswordManager.Shutdown]
    | stats => exact hs
    | pendingQuery => exact hs
    | drainQuery => exact hs
  exact ⟨hflag, hflag⟩

theorem shutdown_idempotent_terminal_witness :
    (⟨[], 0, 0, 0, 0, true⟩ : PasswordManager).Shutdown.Shutdown
      = (⟨[], 0, 0, 0, 0, true⟩ : PasswordManager).Shutdown ∧
    (step ⟨⟨[], 0, 0, 0, 0, true⟩, []⟩ (.hash [3])).pm.shuttingDown = true := by
  have hi := shutdown_idempotent_terminal ⟨⟨[], 0, 0, 0, 0, true⟩, []⟩ (.hash [3])
  exact ⟨hi.1, (hi.2.2 rfl).1⟩

/-- C7: on the freshly constructed engine, with zero submissions, `Stats`
returns `(0, 0)`. -/
theorem stats_fresh_zero :
    NewPasswordManager.Stats = (0, 0) ∧ (runTrace []).pm.Stats = (0, 0) :=
  ⟨rfl, rfl⟩

/-- C8: invariant of every reachable state: the next-handle counter
equals the pending count plus the completed count, and the pending count
is never negative. -/
theorem id_splits_pending_completed (tr : List Event) :
    (runTrace tr).pm.id = (runTrace tr).pm.pendingHashes + (runTrace tr).pm.requests ∧
    0 ≤ (runTrace tr).pm.pendingHashes := by
  obtain ⟨hid, hpend, -, -, -⟩ := sysInv_runTrace tr
  refine ⟨hid, ?_⟩
  rw [hpend]
  positivity

/-- C9: `Get` on a handle with no completed entry returns the not-found
signal and leaves the whole state unchanged; in particular it does not
consume an in-flight task: submitting, fetching some absent handle, and
then completing still leaves the digest fetchable under the issued
handle. -/
theorem get_missing_is_noop (s : SysState) (h k : Int) (v : List Nat) (elapsed : Nat)
    (habs : mapGet s.pm.tasks h = none) :
    (s.pm.Get h).1 = none ∧
    step s (.get h) = s ∧
    ((step (step (step initState (.hash v)) (.get k)) (.complete 0 elapsed)).pm.Get 0).1
      = some (sha512 v) := by
  refine ⟨habs, ?_, ?_⟩
  · have hd : mapDel s.pm.tasks h = s.pm.tasks := mapDel_eq_self_of_none _ _ habs
    show (⟨⟨mapDel s.pm.tasks h, s.pm.id, s.pm.requests, s.pm.totalTime,
      s.pm.pendingHashes, s.pm.shuttingDown⟩, s.inflight⟩ : SysState) = s
    rw [hd]
  · rfl

theorem get_missing_is_noop_witness :
    (NewPasswordManager.Get 3).1 = none ∧
    step initState (.get 3) = initState ∧
    ((step (step (step initState (.hash [7])) (.get 9)) (.complete 0 1)).pm.Get 0).1
      = some (sha512 [7]) :=
  get_missing_is_noop initState 3 9 [7] 1 rfl

/-- C10: every stored completed result is a 64-byte (hence non-empty)
SHA-512 digest, and `Get` returns the not-found signal exactly when no
completed entry exists for the requested handle — so the adapter's nil
check is unambiguous. -/
theorem stored_digest_nonempty (tr : List Event) (h : Int) (v : List Nat)
    (hv : mapGet (runTrace tr).pm.tasks h = some v) :
    v.length = 64 ∧ v ≠ [] ∧
    (((runTrace tr).pm.Get h).1 = none ↔ mapGet (runTrace tr).pm.tasks h = none) := by
  obtain ⟨-, -, -, -, htasks⟩ := sysInv_runTrace tr
  have hfind := hv
  simp only [mapGet] at hfind
  rcases hopt : (runTrace tr).pm.tasks.find? (fun p => p.1 == h) with _ | p
  · rw [hopt] at hfind
    simp at hfind
  · rw [hopt] at hfind
    simp only [Option.map_some'] at hfind
    have hmem := List.mem_of_find?_eq_some hopt
    have hlen : p.2.length = 64 := htasks p hmem
    have hlv : v.length = 64 := by
      rw [← Option.some_inj.mp hfind]
      exact hlen
    refine ⟨hlv, ?_, Iff.rfl⟩
    intro hnil
    rw [hnil] at hlv
    simp at hlv

theorem stored_digest_nonempty_witness :
    (sha512 []).length = 64 ∧ sha512 [] ≠ [] ∧
    (((runTrace [.hash [], .complete 0 0]).pm.Get 0).1 = none ↔
      mapGet (runTrace [.hash [], .complete 0 0]).pm.tasks 0 = none) :=
  stored_digest_nonempty [.hash [], .complete 0 0] 0 (sha512 []) rfl
